import Mathlib

/-!
Verification of the streaming-chat frontend of `local-web-ui`.

The development shallowly embeds the code that the specification talks
about:

* `src/frontend/src/services/api.js` — the SSE client `streamChat`:
  byte chunks are accumulated in a line buffer, complete lines are
  dispatched (`data: ` payloads parsed as JSON; `token` / `content` /
  `error` fields relayed to the callbacks when truthy; malformed JSON
  skipped).
* `src/frontend/src/hooks/useChat.js` — the chat state machine
  (`sendMessage`, the three callbacks, `stopStreaming`).
* `src/frontend/src/hooks/useSession.js` — `clearMemory`.
* `src/frontend/src/hooks/useProvider.js` — localStorage persistence.
* The backend Memory Window Builder and Streaming Orchestrator are not
  part of the frontend sources; where a claim depends on them they are
  modelled from the specification (see the doc comments).
-/

namespace WebUI

/-! ### JSON values, as produced by `JSON.parse`

Numbers are kept as a mantissa/exponent pair (`1.5` parses to
mantissa `15`, exponent `-1`), which is enough to decide JavaScript
truthiness (`0`, `-0`, `0.0e5` are falsy; everything else truthy). -/

inductive Json where
  | null
  | bool (b : Bool)
  | num (mantissa : Int) (exponent : Int)
  | str (s : String)
  | arr (elems : List Json)
  | obj (fields : List (String × Json))

namespace Json

/-- JavaScript truthiness of a JSON value. -/
def truthy : Json → Bool
  | .null => false
  | .bool b => b
  | .num m _ => m != 0
  | .str s => s != ""
  | .arr _ => true
  | .obj _ => true

/-- Property access `obj.key` (JavaScript keeps the last duplicate key).
Returns `none` (i.e. `undefined`) on non-objects and missing keys. -/
def getField : Json → String → Option Json
  | .obj fs, k => fs.reverse.lookup k
  | _, _ => none

mutual

/-- String coercion as applied by `'' + v` in JavaScript, used where the
frontend concatenates a relayed value onto a string. -/
def coerceStr : Json → String
  | .str s => s
  | .bool true => "true"
  | .bool false => "false"
  | .null => "null"
  | .num m e =>
      if e ≥ 0 then toString (m * (10 : Int) ^ e.toNat)
      else toString m ++ "e" ++ toString e
  | .arr xs => String.intercalate "," (coerceStrList xs)
  | .obj _ => "[object Object]"

/-- String coercions of the elements of a JSON array. -/
def coerceStrList : List Json → List String
  | [] => []
  | x :: xs => coerceStr x :: coerceStrList xs

end

/-! #### A JSON parser (model of `JSON.parse`) -/

def isWs (c : Char) : Bool :=
  c = ' ' || c = '\t' || c = '\n' || c = '\r'

def skipWs : List Char → List Char
  | c :: cs => if isWs c then skipWs cs else c :: cs
  | [] => []

def hexVal : Char → Option Nat
  | c =>
    if '0' ≤ c ∧ c ≤ '9' then some (c.toNat - '0'.toNat)
    else if 'a' ≤ c ∧ c ≤ 'f' then some (c.toNat - 'a'.toNat + 10)
    else if 'A' ≤ c ∧ c ≤ 'F' then some (c.toNat - 'A'.toNat + 10)
    else none

/-- Parse the body of a JSON string literal (after the opening quote),
returning the decoded characters and the input after the closing quote. -/
def parseStrBody : List Char → Option (List Char × List Char)
  | [] => none
  | '"' :: rest => some ([], rest)
  | '\\' :: e :: rest =>
      match e with
      | '"' => (parseStrBody rest).map fun (s, r) => ('"' :: s, r)
      | '\\' => (parseStrBody rest).map fun (s, r) => ('\\' :: s, r)
      | '/' => (parseStrBody rest).map fun (s, r) => ('/' :: s, r)
      | 'b' => (parseStrBody rest).map fun (s, r) => ('\x08' :: s, r)
      | 'f' => (parseStrBody rest).map fun (s, r) => ('\x0c' :: s, r)
      | 'n' => (parseStrBody rest).map fun (s, r) => ('\n' :: s, r)
      | 'r' => (parseStrBody rest).map fun (s, r) => ('\r' :: s, r)
      | 't' => (parseStrBody rest).map fun (s, r) => ('\t' :: s, r)
      | 'u' =>
          match rest with
          | h1 :: h2 :: h3 :: h4 :: rest' =>
              match hexVal h1, hexVal h2, hexVal h3, hexVal h4 with
              | some a, some b, some c, some d =>
                  let n := ((a * 16 + b) * 16 + c) * 16 + d
                  (parseStrBody rest').map fun (s, r) =>
                    ((Char.ofNat n) :: s, r)
              | _, _, _, _ => none
          | _ => none
      | _ => none
  | c :: rest =>
      if c.toNat < 32 then none
      else (parseStrBody rest).map fun (s, r) => (c :: s, r)

def digitsToNat (acc : Nat) : List Char → Nat
  | [] => acc
  | c :: cs => digitsToNat (acc * 10 + (c.toNat - '0'.toNat)) cs

/-- Parse a JSON number literal per the JSON grammar (`-?int frac? exp?`,
no leading zeros), returning mantissa, exponent and the rest. -/
def parseNum (cs : List Char) : Option (Int × Int × List Char) :=
  let (neg, cs1) := match cs with
    | '-' :: r => (true, r)
    | _ => (false, cs)
  let intDigits := cs1.takeWhile Char.isDigit
  let cs2 := cs1.dropWhile Char.isDigit
  if intDigits = [] then none
  else if intDigits.length > 1 ∧ intDigits.headD '0' = '0' then none
  else
    let (fracDigits, cs3) := match cs2 with
      | '.' :: r =>
          (r.takeWhile Char.isDigit, r.dropWhile Char.isDigit)
      | _ => ([], cs2)
    if cs2 ≠ [] ∧ cs2.headD ' ' = '.' ∧ fracDigits = [] then none
    else
      let expPart : Option (Int × List Char) := match cs3 with
        | 'e' :: r | 'E' :: r =>
            let (esign, r1) := match r with
              | '+' :: r' => ((1 : Int), r')
              | '-' :: r' => ((-1 : Int), r')
              | _ => ((1 : Int), r)
            let eDigits := r1.takeWhile Char.isDigit
            if eDigits = [] then none
            else some (esign * digitsToNat 0 eDigits, r1.dropWhile Char.isDigit)
        | _ => some (0, cs3)
      match expPart with
      | none => none
      | some (e, rest) =>
          let mag : Int := digitsToNat 0 (intDigits ++ fracDigits)
          let m := if neg then -mag else mag
          some (m, e - fracDigits.length, rest)

mutual

/-- Recursive-descent JSON value parser; `fuel` bounds the recursion and
is instantiated with the input length (each consumed level of structure
consumes at least one character). -/
def parseVal : Nat → List Char → Option (Json × List Char)
  | 0, _ => none
  | fuel + 1, cs =>
    match skipWs cs with
    | 'n' :: 'u' :: 'l' :: 'l' :: rest => some (.null, rest)
    | 't' :: 'r' :: 'u' :: 'e' :: rest => some (.bool true, rest)
    | 'f' :: 'a' :: 'l' :: 's' :: 'e' :: rest => some (.bool false, rest)
    | '"' :: rest =>
        (parseStrBody rest).map fun (s, r) => (.str (String.mk s), r)
    | '[' :: rest =>
        (match skipWs rest with
         | ']' :: r2 => some (.arr [], r2)
         | r2 => parseElems fuel r2 [])
    | '{' :: rest =>
        (match skipWs rest with
         | '}' :: r2 => some (.obj [], r2)
         | r2 => parseMembers fuel r2 [])
    | cs' =>
        (parseNum cs').map fun (m, e, r) => (.num m e, r)

/-- Parse the elements of a non-empty JSON array. -/
def parseElems : Nat → List Char → List Json → Option (Json × List Char)
  | 0, _, _ => none
  | fuel + 1, cs, acc =>
    match parseVal fuel cs with
    | none => none
    | some (v, rest) =>
        match skipWs rest with
        | ',' :: r2 => parseElems fuel r2 (v :: acc)
        | ']' :: r2 => some (.arr (v :: acc).reverse, r2)
        | _ => none

/-- Parse the members of a non-empty JSON object. -/
def parseMembers : Nat → List Char → List (String × Json) →
    Option (Json × List Char)
  | 0, _, _ => none
  | fuel + 1, cs, acc =>
    match skipWs cs with
    | '"' :: rest =>
        (match parseStrBody rest with
         | none => none
         | some (k, r1) =>
             match skipWs r1 with
             | ':' :: r2 =>
                 (match parseVal fuel r2 with
                  | none => none
                  | some (v, r3) =>
                      match skipWs r3 with
                      | ',' :: r4 =>
                          parseMembers fuel r4 ((String.mk k, v) :: acc)
                      | '}' :: r4 =>
                          some (.obj ((String.mk k, v) :: acc).reverse, r4)
                      | _ => none)
             | _ => none)
    | _ => none

end

/-- Model of `JSON.parse`: whole-input parse, rejecting trailing junk. -/
def parse (s : String) : Option Json :=
  match parseVal (s.length + 1) s.data with
  | some (j, rest) => if skipWs rest = [] then some j else none
  | none => none

end Json

/-! ### The SSE stream client (`streamChat` in `services/api.js`)

The reader loop appends each decoded chunk to a line buffer, splits on
`'\n'`, keeps the (possibly empty) final fragment as the new buffer and
dispatches every complete line.  A `data: ` line's payload is parsed as
JSON; the `token`, `content` and `error` fields are relayed to
`onToken` / `onDone` / `onError` — each only when truthy — in that
order.  Malformed JSON payloads and all other lines produce nothing. -/

/-- A callback invocation made by the `streamChat` dispatcher.  The
relayed value is carried as its JavaScript string rendering. -/
inductive Ev where
  | token (s : String)
  | done (s : String)
  | error (s : String)
  deriving Repr, DecidableEq

/-- The events a recognized field of a parsed `data: ` payload produces:
one callback when the field is present and truthy, none otherwise. -/
def fieldEvents (j : Json) (key : String) (mk : String → Ev) : List Ev :=
  match j.getField key with
  | some v => if v.truthy then [mk (Json.coerceStr v)] else []
  | none => []

/-- Dispatch of one complete line, following the body of the reader loop
in `streamChat`: `event: ` lines are skipped, `data: ` lines have their
payload (everything after the 6-character marker) parsed as JSON and the
three recognized fields relayed in source order, all other lines are
ignored. -/
def lineEvents (line : List Char) : List Ev :=
  if "event: ".data.isPrefixOf line then []
  else if "data: ".data.isPrefixOf line then
    match Json.parse (String.mk (line.drop 6)) with
    | some j =>
        fieldEvents j "token" Ev.token ++ fieldEvents j "content" Ev.done ++
          fieldEvents j "error" Ev.error
    | none => []
  else []

/-- Events of a list of complete lines, in order. -/
def linesEvents (ls : List (List Char)) : List Ev :=
  ls.flatMap lineEvents

/-- Concatenation of line lists: the last line of the first list is
joined with the first line of the second (auxiliary for reasoning about
`splitNl` over appended inputs). -/
def glue : List (List Char) → List (List Char) → List (List Char)
  | [], ys => ys
  | x :: xs, ys =>
      match xs with
      | [] =>
          (match ys with
           | [] => [x]
           | y :: ys' => (x ++ y) :: ys')
      | _ :: _ => x :: glue xs ys

/-- `s.split('\n')` on a character list: the list of lines, where a
trailing newline yields a final empty line (JavaScript semantics). -/
def splitNl : List Char → List (List Char)
  | [] => [[]]
  | c :: cs =>
      if c = '\n' then [] :: splitNl cs
      else glue [[c]] (splitNl cs)

/-- The last element of a line list (the fragment the reader loop keeps
as its buffer). -/
def lastLine : List (List Char) → List Char
  | [] => []
  | [l] => l
  | _ :: ls => lastLine ls

/-- One iteration of the reader loop: append the chunk to the buffer,
split on newlines, keep the final fragment as the new buffer and
dispatch the complete lines. -/
def feedChunk (buf chunk : List Char) : List Char × List Ev :=
  let ls := splitNl (buf ++ chunk)
  (lastLine ls, linesEvents ls.dropLast)

/-- The whole reader loop over a sequence of decoded chunks, starting
from buffer `buf`; returns the final buffer and all dispatched events.
When the stream ends the leftover buffer is discarded (the loop
`break`s without flushing it). -/
def feedAll : List Char → List (List Char) → List Char × List Ev
  | buf, [] => (buf, [])
  | buf, ch :: chs =>
      let (b1, evs1) := feedChunk buf ch
      let (b2, evs2) := feedAll b1 chs
      (b2, evs1 ++ evs2)

/-- All callback invocations `streamChat` makes while reading a stream
delivered as the given chunks (successful HTTP response case). -/
def streamEvents (chunks : List String) : List Ev :=
  (feedAll [] (chunks.map String.data)).2

/-- The complete lines of a fully delivered stream: everything before
the final (unterminated) fragment. -/
def completeLines (s : List Char) : List (List Char) :=
  (splitNl s).dropLast

/-- How a `streamChat` request as a whole terminates, seen from the
callbacks (`services/api.js`): a failed HTTP response reports its detail
via `onError` and reads no stream; a network failure reports the thrown
message via `onError` after whatever chunks arrived; a completed read
dispatches exactly the stream's events; an abort (cancellation) stops
the read without any further callback. -/
inductive Outcome where
  | httpErr (detail : String)
  | netErr (chunks : List String) (msg : String)
  | completed (chunks : List String)
  | aborted (chunks : List String)

/-- The callback sequence of a whole request. -/
def outcomeEvents : Outcome → List Ev
  | .httpErr d => [.error d]
  | .netErr chunks m => streamEvents chunks ++ [.error m]
  | .completed chunks => streamEvents chunks
  | .aborted chunks => streamEvents chunks

/-- Whether a callback is terminal (`onDone` or `onError`). -/
def Ev.isTerminal : Ev → Bool
  | .done _ => true
  | .error _ => true
  | .token _ => false

/-- Number of terminal callbacks in an event sequence. -/
def terminalCount (evs : List Ev) : Nat :=
  (evs.filter Ev.isTerminal).length

/-- Whether `onDone` occurs in an event sequence. -/
def hasDone (evs : List Ev) : Bool :=
  evs.any fun e => match e with | .done _ => true | _ => false

/-- Whether `onError` occurs in an event sequence. -/
def hasErr (evs : List Ev) : Bool :=
  evs.any fun e => match e with | .error _ => true | _ => false

/-- The payloads of the `onToken` invocations of an event sequence, in
order. -/
def tokensOf (evs : List Ev) : List String :=
  evs.filterMap fun e => match e with | .token t => some t | _ => none

/-- Concatenation of a list of strings, in order. -/
def strConcat : List String → String
  | [] => ""
  | s :: ss => s ++ strConcat ss

/-! ### The chat hook (`hooks/useChat.js`) -/

/-- A display message (`{ role, content }`); attachments are irrelevant
to the verified properties and omitted from the record the assistant /
streaming paths build. -/
structure Message where
  role : String
  content : String
  deriving Repr, DecidableEq

/-- The state handled by `useChat`: the message list, the streaming
accumulator, the streaming flag, the surfaced error, and whether an
abort controller is currently held (`abortRef.current !== null`). -/
structure ChatState where
  messages : List Message
  streamingContent : String
  isStreaming : Bool
  error : Option String
  hasController : Bool
  deriving Repr, DecidableEq

/-- The initial hook state. -/
def ChatState.init : ChatState :=
  ⟨[], "", false, none, false⟩

/-- JavaScript `String.prototype.trim`: strip whitespace from both
ends. -/
def jsTrim (s : String) : String :=
  String.mk
    (((s.data.dropWhile Char.isWhitespace).reverse.dropWhile
        Char.isWhitespace).reverse)

/-- `sendMessage(content, webSearch, files)` up to the point the request
is issued: the guard returns unchanged state when there is no active
session, the content is blank with no files, or a stream is already
active; otherwise the error is cleared, the user message is appended,
and streaming state is initialized with the abort controller stored. -/
def sendMessage (hasSession : Bool) (content : String) (hasFiles : Bool)
    (st : ChatState) : ChatState :=
  if ¬hasSession ∨ (jsTrim content = "" ∧ ¬hasFiles) ∨ st.isStreaming then st
  else
    { st with
      error := none
      messages := st.messages ++ [⟨"user", content⟩]
      isStreaming := true
      streamingContent := ""
      hasController := true }

/-- The three `streamChat` callbacks `useChat` installs, applied to the
state: `onToken` appends to the accumulator; `onDone` clears the
accumulator, appends the assistant message and stops streaming;
`onError` surfaces the error, stops streaming and clears the
accumulator. -/
def applyEv (st : ChatState) : Ev → ChatState
  | .token t => { st with streamingContent := st.streamingContent ++ t }
  | .done full =>
      { st with
        streamingContent := ""
        messages := st.messages ++ [⟨"assistant", full⟩]
        isStreaming := false }
  | .error e =>
      { st with
        error := some e
        isStreaming := false
        streamingContent := "" }

/-- Relay a sequence of callback invocations, in order. -/
def applyEvs (evs : List Ev) (st : ChatState) : ChatState :=
  evs.foldl applyEv st

/-- `stopStreaming`: if a controller is held, abort it, stop streaming,
and — only when the accumulator is non-empty — keep the accumulated
text as an assistant message. -/
def stopStreaming (st : ChatState) : ChatState :=
  if st.hasController then
    let st1 := { st with hasController := false, isStreaming := false }
    if st.streamingContent ≠ "" then
      { st1 with
        messages := st1.messages ++ [⟨"assistant", st.streamingContent⟩]
        streamingContent := "" }
    else st1
  else st

/-! ### Session records (`hooks/useSession.js`) -/

/-- The per-session settings record (spec §3). -/
structure Settings where
  provider : String
  base_url : String
  api_key : String
  model : String
  max_context : Nat
  max_response_tokens : Nat
  temperature : Int
  low_vram : Bool
  deriving Repr, DecidableEq

/-- A session record as the frontend holds it. -/
structure Session where
  id : String
  title : String
  system_prompt : String
  settings : Settings
  messages : List Message
  deriving Repr, DecidableEq

/-- The local state update `clearMemory` performs on the active session
after the backend clear succeeds: `{ ...prev, messages: [] }`. -/
def clearMemoryLocal (s : Session) : Session :=
  { s with messages := [] }

/-! ### Provider persistence (`hooks/useProvider.js`)

Browser `localStorage` is modelled as a partial map from keys to
strings; `getItem` returns `none` for an absent key. -/

def LocalStorage := String → Option String

/-- `localStorage.setItem`. -/
def lsSet (st : LocalStorage) (k v : String) : LocalStorage :=
  fun q => if q = k then some v else st q

/-- The `useEffect` persisting the API key: runs on every change,
writes the value verbatim. -/
def persistApiKey (st : LocalStorage) (apiKey : String) : LocalStorage :=
  lsSet st "providerApiKey" apiKey

/-- The `useEffect` persisting the provider id. -/
def persistProvider (st : LocalStorage) (p : String) : LocalStorage :=
  lsSet st "provider" p

/-- The `useEffect` persisting the base URL. -/
def persistBaseUrl (st : LocalStorage) (u : String) : LocalStorage :=
  lsSet st "providerBaseUrl" u

/-- The `useEffect` persisting the selected model: guarded by
`if (selectedModel)`, so `null` and the empty string are not written. -/
def persistSelectedModel (st : LocalStorage) (m : Option String) :
    LocalStorage :=
  match m with
  | some v => if v = "" then st else lsSet st "selectedModel" v
  | none => st

/-- The `useState` initializer `localStorage.getItem('providerApiKey') || ''`. -/
def initApiKey (st : LocalStorage) : String :=
  match st "providerApiKey" with
  | some v => if v = "" then "" else v
  | none => ""

/-- The `useState` initializer `localStorage.getItem('provider') || 'ollama'`. -/
def initProvider (st : LocalStorage) : String :=
  match st "provider" with
  | some v => if v = "" then "ollama" else v
  | none => "ollama"

/-- The `useState` initializer `localStorage.getItem('providerBaseUrl') || ''`. -/
def initBaseUrl (st : LocalStorage) : String :=
  match st "providerBaseUrl" with
  | some v => if v = "" then "" else v
  | none => ""

/-- The `useState` initializer `localStorage.getItem('selectedModel') || null`. -/
def initSelectedModel (st : LocalStorage) : Option String :=
  match st "selectedModel" with
  | some v => if v = "" then none else some v
  | none => none

/-! ### Spec-modelled backend components

The backend (FastAPI) sources are not part of the frontend tree, so the
Streaming Orchestrator's busy check and the Memory Window Builder are
modelled from the specification (§4.3, §4.5). -/

/-- Modelled from the spec: the per-session state the backend Streaming
Orchestrator keeps for one session — whether a state machine is active
(`Streaming`), the accumulator of the in-flight request, and the
session's persisted history.  The orchestrator implementation is not
under `src/`. -/
structure OrchSession where
  active : Bool
  accumulator : String
  history : List Message
  deriving Repr, DecidableEq

/-- Modelled from the spec: the outcome of submitting a send-message
request to the orchestrator. -/
inductive SendResult where
  | accepted
  | sessionBusy
  deriving Repr, DecidableEq

/-- Modelled from the spec (§4.5 concurrency rule): a send request for a
session with an active state machine is rejected with `SessionBusy` and
changes nothing; otherwise a new state machine starts.  The orchestrator
implementation is not under `src/`. -/
def orchSend (s : OrchSession) : SendResult × OrchSession :=
  if s.active then (.sessionBusy, s)
  else (.accepted, { s with active := true, accumulator := "" })

/-- Modelled from the spec (§4.3, step 3): walk the history from most
recent to oldest (the input here is already reversed, newest first),
taking messages while the running token estimate stays within the
budget and the message-count cap is not reached; stop at the first
message that does not fit.  The Memory Window Builder implementation is
not under `src/`. -/
def selectRecent (est : String → Nat) :
    List Message → Nat → Nat → List Message
  | [], _, _ => []
  | m :: ms, budget, cap + 1 =>
      if est m.content ≤ budget then
        m :: selectRecent est ms (budget - est m.content) cap
      else []
  | _ :: _, _, 0 => []

/-- Modelled from the spec (§4.3): the Memory Window Builder.
`historyBudget = maxContextTokens - estimate(systemPrompt) -
maxResponseTokens`; if it is not positive only the system prompt is
returned; otherwise the most recent messages fitting the budget (capped
at `cap` messages) are selected, with the single-oversized-latest-message
edge case, reversed back to chronological order, and the system prompt
is prepended.  The Memory Window Builder implementation is not under
`src/`. -/
def build (est : String → Nat) (history : List Message)
    (systemPrompt : String) (maxContextTokens maxResponseTokens cap : Nat) :
    List Message :=
  let sysTokens := est systemPrompt
  let historyBudget : Int :=
    (maxContextTokens : Int) - sysTokens - maxResponseTokens
  if historyBudget ≤ 0 then [⟨"system", systemPrompt⟩]
  else
    let sel := selectRecent est history.reverse historyBudget.toNat cap
    let sel :=
      if sel = [] ∧ history ≠ [] then history.reverse.take 1 else sel
    ⟨"system", systemPrompt⟩ :: sel.reverse

/-- A well-formed SSE data line: the `data: ` marker followed by the
raw payload. -/
def dataLine (raw : List Char) : List Char :=
  "data: ".data ++ raw

/-! ### Lemmas about line splitting and the reader loop -/

lemma glue_nil_left (ys : List (List Char)) : glue [] ys = ys := rfl

lemma glue_single_nil (x : List Char) : glue [x] [] = [x] := rfl

lemma glue_single_cons (x y : List Char) (ys : List (List Char)) :
    glue [x] (y :: ys) = (x ++ y) :: ys := rfl

lemma glue_cons (x : List Char) {xs : List (List Char)} (h : xs ≠ [])
    (ys : List (List Char)) : glue (x :: xs) ys = x :: glue xs ys := by
  cases xs with
  | nil => exact absurd rfl h
  | cons a as => rfl

lemma glue_ne_nil {xs : List (List Char)} (h : xs ≠ [])
    (ys : List (List Char)) : glue xs ys ≠ [] := by
  cases xs with
  | nil => exact absurd rfl h
  | cons x xs =>
    cases xs with
    | nil => cases ys <;> simp [glue_single_nil, glue_single_cons]
    | cons a as => rw [glue_cons x (by simp) ys]; simp

lemma glue_assoc (xs ys zs : List (List Char)) :
    glue (glue xs ys) zs = glue xs (glue ys zs) := by
  induction xs with
  | nil => simp [glue_nil_left]
  | cons x xs ih =>
    cases xs with
    | nil =>
      cases ys with
      | nil => simp [glue_single_nil, glue_nil_left]
      | cons y ys' =>
        rw [glue_single_cons]
        cases ys' with
        | nil =>
          cases zs with
          | nil => simp [glue_single_nil, glue_single_cons]
          | cons z zs' => simp [glue_single_cons, List.append_assoc]
        | cons w ws =>
          rw [glue_cons _ (List.cons_ne_nil w ws) zs,
            glue_cons y (List.cons_ne_nil w ws) zs, glue_single_cons]
    | cons a as =>
      rw [glue_cons x (by simp) ys, glue_cons x (by simp) (glue ys zs),
        glue_cons x (glue_ne_nil (by simp) ys) zs, ih]

lemma splitNl_cons (c : Char) (cs : List Char) :
    splitNl (c :: cs) =
      if c = '\n' then [] :: splitNl cs else glue [[c]] (splitNl cs) := rfl

lemma splitNl_ne_nil (s : List Char) : splitNl s ≠ [] := by
  induction s with
  | nil => simp [splitNl]
  | cons c cs ih =>
    unfold splitNl
    split
    · simp
    · exact glue_ne_nil (by simp) _

lemma splitNl_append (a b : List Char) :
    splitNl (a ++ b) = glue (splitNl a) (splitNl b) := by
  induction a with
  | nil =>
    obtain ⟨y, ys, hy⟩ := List.exists_cons_of_ne_nil (splitNl_ne_nil b)
    simp [splitNl, hy, glue_single_cons]
  | cons c a' ih =>
    rw [List.cons_append, splitNl_cons, splitNl_cons]
    by_cases hc : c = '\n'
    · rw [if_pos hc, if_pos hc, ih,
        glue_cons _ (splitNl_ne_nil a') (splitNl b)]
    · rw [if_neg hc, if_neg hc, ih, ← glue_assoc]

lemma splitNl_of_no_nl {s : List Char} (h : '\n' ∉ s) : splitNl s = [s] := by
  induction s with
  | nil => rfl
  | cons c cs ih =>
    simp only [List.mem_cons, not_or] at h
    rw [splitNl_cons, if_neg (Ne.symm h.1), ih h.2, glue_single_cons]
    rfl

lemma no_nl_of_mem_splitNl {s : List Char} :
    ∀ l ∈ splitNl s, '\n' ∉ l := by
  induction s with
  | nil => intro l hl; simp [splitNl] at hl; simp [hl]
  | cons c cs ih =>
    intro l hl
    rw [splitNl_cons] at hl
    obtain ⟨y, ys, hy⟩ := List.exists_cons_of_ne_nil (splitNl_ne_nil cs)
    by_cases hc : c = '\n'
    · rw [if_pos hc] at hl
      rcases List.mem_cons.mp hl with h | h
      · simp [h]
      · exact ih l h
    · rw [if_neg hc, hy, glue_single_cons] at hl
      rcases List.mem_cons.mp hl with h | h
      · subst h
        intro hmem
        rcases List.mem_cons.mp hmem with h1 | h1
        · exact hc h1.symm
        · exact ih y (by simp [hy]) h1
      · exact ih l (by simp [hy, h])

lemma lastLine_cons (x : List Char) {ls : List (List Char)} (h : ls ≠ []) :
    lastLine (x :: ls) = lastLine ls := by
  cases ls with
  | nil => exact absurd rfl h
  | cons a as => rfl

lemma lastLine_mem {ls : List (List Char)} (h : ls ≠ []) :
    lastLine ls ∈ ls := by
  induction ls with
  | nil => exact absurd rfl h
  | cons x xs ih =>
    cases xs with
    | nil => simp [lastLine]
    | cons a as => rw [lastLine_cons x (by simp)]; simp [ih (by simp)]

lemma lastLine_append (xs : List (List Char)) {ys : List (List Char)}
    (h : ys ≠ []) : lastLine (xs ++ ys) = lastLine ys := by
  induction xs with
  | nil => rfl
  | cons x xs ih =>
    rw [List.cons_append, lastLine_cons x (by simp [h]), ih]

lemma glue_split {xs : List (List Char)} (h : xs ≠ [])
    (ys : List (List Char)) :
    glue xs ys = xs.dropLast ++ glue [lastLine xs] ys := by
  induction xs with
  | nil => exact absurd rfl h
  | cons x xs ih =>
    cases xs with
    | nil => simp [lastLine]
    | cons a as =>
      rw [glue_cons x (by simp) ys, ih (by simp),
        lastLine_cons x (by simp)]
      simp

lemma linesEvents_append (xs ys : List (List Char)) :
    linesEvents (xs ++ ys) = linesEvents xs ++ linesEvents ys := by
  simp [linesEvents]

/-- The content of the reader loop: feeding any chunking of a stream
equals splitting the whole stream into lines, dispatching every
complete line in order, and keeping the final unterminated fragment as
the buffer. -/
lemma feedAll_eq (chs : List (List Char)) :
    ∀ buf : List Char, '\n' ∉ buf →
      feedAll buf chs =
        (lastLine (splitNl (buf ++ chs.flatten)),
         linesEvents (splitNl (buf ++ chs.flatten)).dropLast) := by
  induction chs with
  | nil =>
    intro buf hbuf
    rw [List.flatten_nil, List.append_nil, splitNl_of_no_nl hbuf]
    rfl
  | cons ch chs ih =>
    intro buf hbuf
    have hL1 : splitNl (buf ++ ch) ≠ [] := splitNl_ne_nil _
    have hb1 : '\n' ∉ lastLine (splitNl (buf ++ ch)) :=
      no_nl_of_mem_splitNl _ (lastLine_mem hL1)
    have hG : splitNl (lastLine (splitNl (buf ++ ch)) ++ chs.flatten) ≠ [] :=
      splitNl_ne_nil _
    have key : splitNl (buf ++ (ch :: chs).flatten) =
        (splitNl (buf ++ ch)).dropLast ++
          splitNl (lastLine (splitNl (buf ++ ch)) ++ chs.flatten) := by
      rw [List.flatten_cons, ← List.append_assoc,
        splitNl_append (buf ++ ch) chs.flatten, glue_split hL1,
        splitNl_append (lastLine (splitNl (buf ++ ch))) chs.flatten,
        splitNl_of_no_nl hb1]
    have unfold1 : feedAll buf (ch :: chs) =
        ((feedAll (lastLine (splitNl (buf ++ ch))) chs).1,
          linesEvents (splitNl (buf ++ ch)).dropLast ++
            (feedAll (lastLine (splitNl (buf ++ ch))) chs).2) := rfl
    rw [unfold1, ih _ hb1, key, lastLine_append _ hG,
      List.dropLast_append_of_ne_nil _ hG, linesEvents_append]

/-- `streamChat`'s callback sequence for a stream is independent of how
the network delivered it in chunks: it is the dispatch of the complete
lines of the concatenated stream. -/
lemma streamEvents_eq (chunks : List String) :
    streamEvents chunks =
      linesEvents (completeLines (chunks.map String.data).flatten) := by
  have h := feedAll_eq (chunks.map String.data) [] (by simp)
  simp only [streamEvents, completeLines, h, List.nil_append]

/-! ### Lemmas about line dispatch -/

lemma isPrefixOf_append_self (p rest : List Char) :
    p.isPrefixOf (p ++ rest) = true := by
  induction p with
  | nil => simp [List.isPrefixOf]
  | cons a as ih =>
    simp only [List.cons_append, List.isPrefixOf, beq_self_eq_true,
      Bool.true_and]
    exact ih

lemma lineEvents_dataLine_none {raw : List Char}
    (h : Json.parse (String.mk raw) = none) :
    lineEvents (dataLine raw) = [] := by
  have h1 : "event: ".data.isPrefixOf (dataLine raw) = false := rfl
  have h2 : "data: ".data.isPrefixOf (dataLine raw) = true :=
    isPrefixOf_append_self "data: ".data raw
  have h3 : (dataLine raw).drop 6 = raw := rfl
  simp [lineEvents, h1, h2, h3, h]

lemma lineEvents_dataLine_some {raw : List Char} {j : Json}
    (h : Json.parse (String.mk raw) = some j) :
    lineEvents (dataLine raw) =
      fieldEvents j "token" Ev.token ++ fieldEvents j "content" Ev.done ++
        fieldEvents j "error" Ev.error := by
  have h1 : "event: ".data.isPrefixOf (dataLine raw) = false := rfl
  have h2 : "data: ".data.isPrefixOf (dataLine raw) = true :=
    isPrefixOf_append_self "data: ".data raw
  have h3 : (dataLine raw).drop 6 = raw := rfl
  simp [lineEvents, h1, h2, h3, h]

lemma fieldEvents_of_falsy {j : Json} {key : String} {v : Json}
    (hv : j.getField key = some v) (ht : v.truthy = false)
    (mk : String → Ev) : fieldEvents j key mk = [] := by
  simp [fieldEvents, hv, ht]

lemma tokensOf_append (xs ys : List Ev) :
    tokensOf (xs ++ ys) = tokensOf xs ++ tokensOf ys := by
  simp [tokensOf]

lemma terminalCount_append (xs ys : List Ev) :
    terminalCount (xs ++ ys) = terminalCount xs + terminalCount ys := by
  simp [terminalCount, List.filter_append]

lemma terminalCount_linesEvents (ls : List (List Char)) :
    terminalCount (linesEvents ls) =
      (ls.map fun l => terminalCount (lineEvents l)).sum := by
  induction ls with
  | nil => rfl
  | cons l ls ih =>
    simp only [linesEvents, List.flatMap_cons, List.map_cons, List.sum_cons,
      ← ih, linesEvents, terminalCount_append]

lemma two_le_terminalCount_of_done_err {evs : List Ev}
    (hd : hasDone evs = true) (he : hasErr evs = true) :
    2 ≤ terminalCount evs := by
  simp only [hasDone, List.any_eq_true] at hd
  simp only [hasErr, List.any_eq_true] at he
  obtain ⟨d, hdMem, hdIs⟩ := hd
  obtain ⟨e, heMem, heIs⟩ := he
  obtain ⟨s, rfl⟩ : ∃ s, d = Ev.done s := by
    cases d <;> simp_all
  obtain ⟨s', rfl⟩ : ∃ s', e = Ev.error s' := by
    cases e <;> simp_all
  have hdF : Ev.done s ∈ evs.filter Ev.isTerminal :=
    List.mem_filter.mpr ⟨hdMem, rfl⟩
  have heF : Ev.error s' ∈ evs.filter Ev.isTerminal :=
    List.mem_filter.mpr ⟨heMem, rfl⟩
  have heF' : Ev.error s' ∈ (evs.filter Ev.isTerminal).erase (Ev.done s) :=
    (List.mem_erase_of_ne (by simp)).mpr heF
  have h1 : 0 < ((evs.filter Ev.isTerminal).erase (Ev.done s)).length :=
    List.length_pos_of_mem heF'
  have h2 := List.length_erase_of_mem hdF
  simp only [terminalCount]
  omega

/-! ### Lemmas about the chat hook state -/

lemma applyEvs_tokens (ts : List String) (st : ChatState) :
    applyEvs (ts.map Ev.token) st =
      { st with streamingContent := st.streamingContent ++ strConcat ts } := by
  induction ts generalizing st with
  | nil => simp [applyEvs, strConcat]
  | cons t ts ih =>
    simp only [List.map_cons, applyEvs, List.foldl_cons]
    show applyEvs (ts.map Ev.token) (applyEv st (Ev.token t)) = _
    rw [ih]
    simp [applyEv, strConcat, String.append_assoc]

lemma strConcat_cons_ne_empty {t : String} (h : t ≠ "")
    (ts : List String) : strConcat (t :: ts) ≠ "" := by
  simp only [strConcat]
  intro hEq
  have hdata := congrArg String.data hEq
  rw [String.data_append] at hdata
  have hnil : ("" : String).data = [] := rfl
  rw [hnil] at hdata
  have ht : t.data = [] := (List.append_eq_nil.mp hdata).1
  apply h
  cases t with
  | mk d => cases ht; rfl

lemma applyEvs_append (xs ys : List Ev) (st : ChatState) :
    applyEvs (xs ++ ys) st = applyEvs ys (applyEvs xs st) := by
  simp [applyEvs, List.foldl_append]

lemma tokensOf_fieldEvents_done (j : Json) (k : String) :
    tokensOf (fieldEvents j k Ev.done) = [] := by
  unfold fieldEvents
  cases j.getField k with
  | none => rfl
  | some v => by_cases h : v.truthy <;> simp [h, tokensOf]

lemma tokensOf_fieldEvents_error (j : Json) (k : String) :
    tokensOf (fieldEvents j k Ev.error) = [] := by
  unfold fieldEvents
  cases j.getField k with
  | none => rfl
  | some v => by_cases h : v.truthy <;> simp [h, tokensOf]

/-! ### Claim theorems -/

/-- C4: for every streaming request and however the incoming byte
stream is split across network reads, the events `streamChat` relays
are exactly the dispatch, in order, of the complete `data: ` lines of
the whole stream (so token events come in the order their lines
appear), and replaying any sequence of relayed tokens through the
`onToken` handler of `useChat` leaves `streamingContent` equal to the
concatenation of those tokens in relay order. -/
theorem streamChat_order_and_accumulation (chunks : List String) :
    streamEvents chunks =
      linesEvents (completeLines (chunks.map String.data).flatten) ∧
    ∀ (ts : List String) (st : ChatState),
      applyEvs (ts.map Ev.token) st =
        { st with streamingContent := st.streamingContent ++ strConcat ts } :=
  ⟨streamEvents_eq chunks, fun ts st => applyEvs_tokens ts st⟩

/-- C2, counterexample: the `streamChat` dispatcher does not stop at a
terminal event — a stream whose data lines carry a `content` and then
an `error` field makes it invoke `onDone` *and* `onError` in one
request, contradicting the claim that at most one of them is invoked
for any input byte stream. -/
theorem streamChat_two_terminals_counterexample :
    outcomeEvents (.completed
        ["data: \x7b\"content\":\"a\"\x7d\ndata: \x7b\"error\":\"b\"\x7d\n"]) =
      [Ev.done "a", Ev.error "b"] := by
  rfl

/-- C2, amended: the dispatcher invokes one terminal callback per
truthy `content`/`error` field among the complete data lines of the
stream; consequently, whenever the stream carries at most one terminal
event (as the backend contract promises), at most one of
`onDone`/`onError` is invoked — and never both. -/
theorem streamChat_single_terminal (chunks : List String) :
    terminalCount (outcomeEvents (.completed chunks)) =
      ((completeLines (chunks.map String.data).flatten).map
          fun l => terminalCount (lineEvents l)).sum ∧
    (terminalCount (outcomeEvents (.completed chunks)) ≤ 1 →
      ¬(hasDone (outcomeEvents (.completed chunks)) = true ∧
        hasErr (outcomeEvents (.completed chunks)) = true)) := by
  have hev : outcomeEvents (.completed chunks) = streamEvents chunks := rfl
  constructor
  · rw [hev, streamEvents_eq, terminalCount_linesEvents]
  · rintro hle ⟨hd, he⟩
    have := two_le_terminalCount_of_done_err hd he
    omega

/-- C2, witness for the amended theorem. -/
theorem streamChat_single_terminal_witness :
    terminalCount (outcomeEvents
        (.completed ["data: \x7b\"content\":\"hi\"\x7d\n"])) ≤ 1 ∧
    ¬(hasDone (outcomeEvents
          (.completed ["data: \x7b\"content\":\"hi\"\x7d\n"])) = true ∧
      hasErr (outcomeEvents
          (.completed ["data: \x7b\"content\":\"hi\"\x7d\n"])) = true) :=
  ⟨by decide,
   (streamChat_single_terminal ["data: \x7b\"content\":\"hi\"\x7d\n"]).2
     (by decide)⟩

/-- C3: a `data: ` line whose payload does not parse as JSON produces
no callback, and a stream containing such a line produces exactly the
events of the remaining lines — the malformed line is skipped without
aborting the stream. -/
theorem streamChat_skips_malformed (chunks : List String)
    (ls1 ls2 : List (List Char)) (raw : List Char)
    (hraw : Json.parse (String.mk raw) = none)
    (hsplit : completeLines (chunks.map String.data).flatten =
      ls1 ++ dataLine raw :: ls2) :
    lineEvents (dataLine raw) = [] ∧
    streamEvents chunks = linesEvents ls1 ++ linesEvents ls2 := by
  have h0 := lineEvents_dataLine_none hraw
  refine ⟨h0, ?_⟩
  rw [streamEvents_eq, hsplit]
  simp [linesEvents, h0]

/-- C3, witness: a stream with a malformed line between no lines and a
well-formed token line; the token line is still dispatched. -/
theorem streamChat_skips_malformed_witness :
    lineEvents (dataLine "not json".data) = [] ∧
    streamEvents ["data: not json\ndata: \x7b\"token\":\"x\"\x7d\n"] =
      linesEvents [] ++ linesEvents ["data: \x7b\"token\":\"x\"\x7d".data] :=
  streamChat_skips_malformed
    ["data: not json\ndata: \x7b\"token\":\"x\"\x7d\n"]
    [] ["data: \x7b\"token\":\"x\"\x7d".data] "not json".data
    (by rfl) (by rfl)

/-- C9: a recognized field carrying a falsy value triggers no callback:
a well-formed `data: ` line whose `token` field is falsy relays no
token; the concrete line `data: {"token":""}` produces no event at
all; and a stream line `data: {"content":""}` is indistinguishable
from the line being absent. -/
theorem streamChat_drops_falsy_fields :
    (∀ (raw : List Char) (j v : Json), Json.parse (String.mk raw) = some j →
        j.getField "token" = some v → v.truthy = false →
        tokensOf (lineEvents (dataLine raw)) = []) ∧
    lineEvents (dataLine "\x7b\"token\":\"\"\x7d".data) = [] ∧
    ∀ ls1 ls2 : List (List Char),
      linesEvents (ls1 ++ dataLine "\x7b\"content\":\"\"\x7d".data :: ls2) =
        linesEvents (ls1 ++ ls2) := by
  refine ⟨?_, by rfl, ?_⟩
  · intro raw j v hp hf ht
    rw [lineEvents_dataLine_some hp, tokensOf_append, tokensOf_append,
      fieldEvents_of_falsy hf ht Ev.token, tokensOf_fieldEvents_done,
      tokensOf_fieldEvents_error]
    rfl
  · intro ls1 ls2
    have h0 : lineEvents (dataLine "\x7b\"content\":\"\"\x7d".data) = [] := rfl
    simp [linesEvents, h0]

/-- C9, witness: the general falsy-token statement applied to the
concrete line `data: {"token":""}`. -/
theorem streamChat_drops_falsy_fields_witness :
    tokensOf (lineEvents (dataLine "\x7b\"token\":\"\"\x7d".data)) = [] :=
  streamChat_drops_falsy_fields.1 "\x7b\"token\":\"\"\x7d".data
    (.obj [("token", .str "")]) (.str "") (by rfl) (by rfl) (by rfl)

/-- C1, counterexample: cancelling after zero relayed chunks persists
no assistant message at all — the message list holds only the user
message, with no (empty) assistant entry — so the claim's
"the persisted assistant message equals the concatenation of the k
chunks" fails at k = 0. -/
theorem stopStreaming_zero_chunks_counterexample :
    (stopStreaming (sendMessage true "hi" false ChatState.init)).messages =
      [⟨"user", "hi"⟩] ∧
    ((stopStreaming (sendMessage true "hi" false ChatState.init)).messages.all
        fun m => m.role != "assistant") = true := by
  constructor <;> rfl

/-- C1, amended: if cancellation is issued after `k ≥ 1` token chunks
have been relayed, the persisted assistant message equals the
concatenation of exactly those chunks in relay order (and streaming
state is cleared); after zero chunks nothing is persisted
(the code's documented policy), and an aborted read relays nothing
further by construction. -/
theorem stopStreaming_persists_partial (st : ChatState) (content : String)
    (ts : List String) (hstream : st.isStreaming = false)
    (hcontent : jsTrim content ≠ "") (hne : ts ≠ [])
    (htok : ∀ t ∈ ts, t ≠ "") :
    (stopStreaming (applyEvs (ts.map Ev.token)
        (sendMessage true content false st))).messages =
      st.messages ++ [⟨"user", content⟩, ⟨"assistant", strConcat ts⟩] ∧
    (stopStreaming (applyEvs (ts.map Ev.token)
        (sendMessage true content false st))).streamingContent = "" ∧
    (stopStreaming (applyEvs (ts.map Ev.token)
        (sendMessage true content false st))).isStreaming = false := by
  obtain ⟨t, ts', rfl⟩ := List.exists_cons_of_ne_nil hne
  have hsend : sendMessage true content false st =
      { st with
        error := none
        messages := st.messages ++ [⟨"user", content⟩]
        isStreaming := true
        streamingContent := ""
        hasController := true } := by
    simp [sendMessage, hstream, hcontent]
  have hconc : strConcat (t :: ts') ≠ "" :=
    strConcat_cons_ne_empty (htok t (by simp)) ts'
  rw [hsend, applyEvs_tokens]
  simp [stopStreaming, hconc]

/-- C1, witness for the amended theorem: cancelling after the chunks
"He", "llo" persists the assistant message "Hello". -/
theorem stopStreaming_persists_partial_witness :
    (stopStreaming (applyEvs (["He", "llo"].map Ev.token)
        (sendMessage true "hi" false ChatState.init))).messages =
      [⟨"user", "hi"⟩, ⟨"assistant", "Hello"⟩] ∧
    (stopStreaming (applyEvs (["He", "llo"].map Ev.token)
        (sendMessage true "hi" false ChatState.init))).streamingContent =
      "" := by
  have h := stopStreaming_persists_partial ChatState.init "hi" ["He", "llo"]
    rfl (by decide) (by decide) (by decide)
  exact ⟨h.1, h.2.1⟩

/-- C5: a send attempt while a stream is active is rejected and leaves
everything unchanged — the `useChat` guard returns without touching the
state, and (modelled from the spec, the backend orchestrator not being
under `src/`) the orchestrator answers `SessionBusy` and leaves the
session's machine, accumulator and history untouched. -/
theorem second_send_rejected_busy :
    (∀ (st : ChatState) (hasSession : Bool) (content : String)
        (hasFiles : Bool), st.isStreaming = true →
        sendMessage hasSession content hasFiles st = st) ∧
    (∀ os : OrchSession, os.active = true →
        orchSend os = (.sessionBusy, os)) := by
  constructor
  · intro st hs c hf h
    simp [sendMessage, h]
  · intro os h
    simp [orchSend, h]

/-- C5, witness: a concrete streaming state rejects a second send
unchanged, and a concrete active orchestrator session answers
`SessionBusy`. -/
theorem second_send_rejected_busy_witness :
    sendMessage true "again" false ⟨[], "par", true, none, true⟩ =
      ⟨[], "par", true, none, true⟩ ∧
    orchSend ⟨true, "acc", []⟩ = (.sessionBusy, ⟨true, "acc", []⟩) :=
  ⟨second_send_rejected_busy.1 _ true "again" false rfl,
   second_send_rejected_busy.2 _ rfl⟩

/-- C6: a request that terminates with an error — failed HTTP response,
`error` stream event, or non-abort network failure, each of which is
delivered as a terminal `onError` — appends no assistant message: the
error is surfaced, the accumulator is cleared, streaming stops, and the
message list is exactly as it was after the user message. -/
theorem error_leaves_history (st : ChatState) (content : String)
    (ts : List String) (emsg : String) (chunks : List String)
    (hstream : st.isStreaming = false) (hcontent : jsTrim content ≠ "") :
    (applyEvs (ts.map Ev.token ++ [Ev.error emsg])
        (sendMessage true content false st)).messages =
      st.messages ++ [⟨"user", content⟩] ∧
    (applyEvs (ts.map Ev.token ++ [Ev.error emsg])
        (sendMessage true content false st)).error = some emsg ∧
    (applyEvs (ts.map Ev.token ++ [Ev.error emsg])
        (sendMessage true content false st)).streamingContent = "" ∧
    (applyEvs (ts.map Ev.token ++ [Ev.error emsg])
        (sendMessage true content false st)).isStreaming = false ∧
    outcomeEvents (.httpErr emsg) = [Ev.error emsg] ∧
    outcomeEvents (.netErr chunks emsg) =
      streamEvents chunks ++ [Ev.error emsg] := by
  have hsend : sendMessage true content false st =
      { st with
        error := none
        messages := st.messages ++ [⟨"user", content⟩]
        isStreaming := true
        streamingContent := ""
        hasController := true } := by
    simp [sendMessage, hstream, hcontent]
  rw [hsend, applyEvs_append, applyEvs_tokens]
  refine ⟨?_, ?_, ?_, ?_, rfl, rfl⟩ <;> simp [applyEvs, applyEv]

/-- C6, witness: a concrete failed request leaves only the user
message. -/
theorem error_leaves_history_witness :
    (applyEvs (["He"].map Ev.token ++ [Ev.error "boom"])
        (sendMessage true "hi" false ChatState.init)).messages =
      [⟨"user", "hi"⟩] ∧
    (applyEvs (["He"].map Ev.token ++ [Ev.error "boom"])
        (sendMessage true "hi" false ChatState.init)).error = some "boom" := by
  have h := error_leaves_history ChatState.init "hi" ["He"] "boom" []
    rfl (by decide)
  exact ⟨h.1, h.2.1⟩

/-- C7: after `clearMemory`'s local update of the active session the
message sequence is empty and every other field — settings, system
prompt, title, id — is unchanged. -/
theorem clearMemory_resets_messages_only (s : Session) :
    (clearMemoryLocal s).messages = [] ∧
    (clearMemoryLocal s).settings = s.settings ∧
    (clearMemoryLocal s).system_prompt = s.system_prompt ∧
    (clearMemoryLocal s).title = s.title ∧
    (clearMemoryLocal s).id = s.id := by
  simp [clearMemoryLocal]

/-- C8 (Memory Window Builder, modelled from the spec): with
`maxContextTokens = 100`, `maxResponseTokens = 30`, a system prompt
estimating to 20 tokens (history budget 50) and ten history messages
each estimating to 15 tokens, the builder returns the system prompt
followed by exactly the 3 most recent messages. -/
theorem build_scenario (est : String → Nat) (sysP : String)
    (m1 m2 m3 m4 m5 m6 m7 m8 m9 m10 : Message) (cap : Nat)
    (hsys : est sysP = 20)
    (h1 : est m1.content = 15) (h2 : est m2.content = 15)
    (h3 : est m3.content = 15) (h4 : est m4.content = 15)
    (h5 : est m5.content = 15) (h6 : est m6.content = 15)
    (h7 : est m7.content = 15) (h8 : est m8.content = 15)
    (h9 : est m9.content = 15) (h10 : est m10.content = 15)
    (hcap : 3 ≤ cap) :
    build est [m1, m2, m3, m4, m5, m6, m7, m8, m9, m10] sysP 100 30 cap =
      [⟨"system", sysP⟩, m8, m9, m10] := by
  obtain ⟨k, rfl⟩ := Nat.exists_eq_add_of_le' hcap
  simp [build, selectRecent, hsys, h1, h2, h3, h4, h5, h6, h7, h8, h9, h10]
  cases k with
  | zero => rfl
  | succ k' => simp [selectRecent, h7]

/-- C8, witness: a concrete estimator and history realizing the
scenario. -/
theorem build_scenario_witness :
    build (fun s => if s = "S" then 20 else 15)
        [⟨"user", "a"⟩, ⟨"assistant", "b"⟩, ⟨"user", "c"⟩,
         ⟨"assistant", "d"⟩, ⟨"user", "e"⟩, ⟨"assistant", "f"⟩,
         ⟨"user", "g"⟩, ⟨"assistant", "h"⟩, ⟨"user", "i"⟩,
         ⟨"assistant", "j"⟩] "S" 100 30 10 =
      [⟨"system", "S"⟩, ⟨"assistant", "h"⟩, ⟨"user", "i"⟩,
       ⟨"assistant", "j"⟩] :=
  build_scenario (fun s => if s = "S" then 20 else 15) "S"
    ⟨"user", "a"⟩ ⟨"assistant", "b"⟩ ⟨"user", "c"⟩ ⟨"assistant", "d"⟩
    ⟨"user", "e"⟩ ⟨"assistant", "f"⟩ ⟨"user", "g"⟩ ⟨"assistant", "h"⟩
    ⟨"user", "i"⟩ ⟨"assistant", "j"⟩ 10 (by decide) (by decide) (by decide)
    (by decide) (by decide) (by decide) (by decide) (by decide) (by decide)
    (by decide) (by decide) (by decide)

/-- C10: every change to the API key is written verbatim to
localStorage under `providerApiKey` and restored from that key on
initialization; provider and base URL are likewise written under their
own keys (and restored), and a selected model — the write is guarded by
the value being truthy — is written under `selectedModel` and restored,
so all of them survive a page reload. -/
theorem provider_persistence (st : LocalStorage) (v : String) :
    persistApiKey st v "providerApiKey" = some v ∧
    initApiKey (persistApiKey st v) = v ∧
    persistProvider st v "provider" = some v ∧
    persistBaseUrl st v "providerBaseUrl" = some v ∧
    initBaseUrl (persistBaseUrl st v) = v ∧
    (v ≠ "" →
      initProvider (persistProvider st v) = v ∧
      persistSelectedModel st (some v) "selectedModel" = some v ∧
      initSelectedModel (persistSelectedModel st (some v)) = some v) := by
  refine ⟨?_, ?_, ?_, ?_, ?_, ?_⟩
  · simp [persistApiKey, lsSet]
  · simp [initApiKey, persistApiKey, lsSet]
    exact fun h => h.symm
  · simp [persistProvider, lsSet]
  · simp [persistBaseUrl, lsSet]
  · simp [initBaseUrl, persistBaseUrl, lsSet]
    exact fun h => h.symm
  · intro hv
    refine ⟨?_, ?_, ?_⟩
    · simp [initProvider, persistProvider, lsSet, hv]
    · simp [persistSelectedModel, lsSet, hv]
    · simp [initSelectedModel, persistSelectedModel, lsSet, hv]

/-- C10, witness: a concrete key round-trips through an empty
localStorage. -/
theorem provider_persistence_witness :
    persistApiKey (fun _ => none) "k1" "providerApiKey" = some "k1" ∧
    initApiKey (persistApiKey (fun _ => none) "k1") = "k1" ∧
    initSelectedModel
        (persistSelectedModel (fun _ => none) (some "m1")) = some "m1" := by
  have h := provider_persistence (fun _ => none) "k1"
  have h2 := provider_persistence (fun _ => none) "m1"
  exact ⟨h.1, h.2.1, (h2.2.2.2.2.2 (by decide)).2.2⟩

end WebUI
